import Mathlib

/-!
Verification of the section-segmentation engine of the edgar-crawler
repository (src/extract_items.py, src/item_lists.py).

The Python code is shallowly embedded.  Regular-expression match objects
(re.Match) are represented by the ReMatch structure recording the match
boundaries and the boundaries of capture group 1; the regex engine itself is
represented by explicit lists of matches / oracle functions supplied as
inputs, and the control flow of the Python functions that consume those
matches is translated statement by statement.  Python string slicing and
list indexing are reproduced (including negative-index semantics), Python
ints are Int where subtraction occurs, and the evolving instance state
(self.items_to_extract, self.items_list, the positions ledger) is passed
explicitly.
-/

namespace EdgarCrawler

/-! ## Python string primitives -/

/-- Python s[a:b] for natural indices (used where the code slices with
clamped nonnegative offsets, e.g. text[x : y] in get_item_section). -/
def pySliceNat (s : String) (a b : Nat) : String :=
  (((s.toList).drop a).take (b - a)).asString

/-- Clamp a Python slice index (which may be negative, counting from the
end) into the range 0..len. -/
def pyBound (len : Nat) (i : Int) : Nat :=
  if i < 0 then (max 0 ((len : Int) + i)).toNat else min i.toNat len

/-- Python s[a:b] with full slice-index semantics for Int indices. -/
def pySliceInt (s : String) (a b : Int) : String :=
  let n := s.toList.length
  let a := pyBound n a
  let b := pyBound n b
  (((s.toList).drop a).take (b - a)).asString

/-- Python s[a:] for a natural index. -/
def pySuffix (s : String) (a : Nat) : String :=
  ((s.toList).drop a).asString

/-- Python s[:b] for an Int index (negative counts from the end). -/
def pyPrefix (s : String) (b : Int) : String :=
  pySliceInt s 0 b

/-- Python s.strip(): remove leading and trailing whitespace. -/
def pyStrip (s : String) : String :=
  (((s.toList.dropWhile Char.isWhitespace).reverse.dropWhile
      Char.isWhitespace).reverse).asString

/-- Test whether the second character list is a prefix of the first. -/
def listStartsWith : List Char → List Char → Bool
  | _, [] => true
  | [], _ :: _ => false
  | c :: cs, d :: ds => c == d && listStartsWith cs ds

/-- The remainder of the first list after its first occurrence of the
second (none when the second does not occur). -/
def dropAfterSub (sep : List Char) : List Char → Option (List Char)
  | [] => none
  | c :: cs =>
      if listStartsWith (c :: cs) sep then some ((c :: cs).drop sep.length)
      else dropAfterSub sep cs

/-- The prefix of the first list before its first occurrence of the
second (the whole list when the second does not occur). -/
def takeBeforeSub (sep : List Char) : List Char → List Char
  | [] => []
  | c :: cs =>
      if listStartsWith (c :: cs) sep then []
      else c :: takeBeforeSub sep cs

/-- Python (sub in s): substring containment test. -/
def hasSub (s sub : String) : Bool :=
  sub.toList.isEmpty || (dropAfterSub sub.toList s.toList).isSome

/-- Python s.split(sep)[0]: the part before the first occurrence of sep
(s itself when sep is absent; sep is non-empty in all modelled uses). -/
def pySplitHead (s sep : String) : String :=
  (takeBeforeSub sep.toList s.toList).asString

/-- Python s.split(sep)[1]: the part between the first and second
occurrence of sep (empty when sep is absent, where Python would raise). -/
def pySplitSnd (s sep : String) : String :=
  match dropAfterSub sep.toList s.toList with
  | none => ""
  | some rest => (takeBeforeSub sep.toList rest).asString

/-! ## Regex match objects

A ReMatch records, for one re.Match produced by one of the finditer calls
in extract_items.py, the values match.start(), match.end() and, for the
two-heading patterns of parse_item, regs[1] (the span of capture group 1,
i.e. of the next-item heading).  Offsets are relative to the string the
regex was run on, exactly as in Python. -/

structure ReMatch where
  mstart : Nat
  mstop : Nat
  g1start : Nat
  g1stop : Nat
deriving Repr, DecidableEq

/-- Structural facts true of every match of the two-heading pattern
used in parse_item:
rf"\n[^\S\r\n]*(item)[.*~\-:\s\()].+?(\n[^\S\r\n]*(next item)[.*~\-:\s\(])".
Group 1 is a suffix of the whole match, so regs[1][1] = match.end();
before group 1 the pattern consumes at least the newline, the item heading,
one delimiter character and one character of ".+?", so group 1 starts at
least 2 characters after match.start(). -/
def WFMatch (m : ReMatch) : Prop :=
  m.mstart + 2 ≤ m.g1start ∧ m.g1start ≤ m.g1stop ∧ m.g1stop = m.mstop

instance (m : ReMatch) : Decidable (WFMatch m) := by
  unfold WFMatch; infer_instance

/-- Python match.end() - len(match[1]) - 1: the value appended to the
positions ledger in get_item_section (line 970), made absolute with the
offset of the slice the match was found in. -/
def appendPos (offset : Nat) (m : ReMatch) : Int :=
  (offset : Int) + (m.mstop : Int) - ((m.g1stop - m.g1start : Nat) : Int) - 1

/-- Length used by the selection loop of get_item_section (line 949):
match.end() - match.start(). -/
def codeLen (m : ReMatch) : Nat := m.mstop - m.mstart

/-! ## ExtractItems.get_item_section (extract_items.py lines 924-972) -/

/-- One step of the selection loop of get_item_section: the running state
is (max_match with its offset, max_match_length), updated when the current
candidate is strictly longer and (when the positions ledger is non-empty)
starts at or after the last recorded position. -/
def gisStep (positions : List Int) (acc : Option (Nat × ReMatch) × Nat)
    (c : Nat × ReMatch) : Option (Nat × ReMatch) × Nat :=
  let matchLength := codeLen c.2
  match positions.getLast? with
  | some p =>
      if matchLength > acc.2 ∧ ((c.1 : Int) + c.2.mstart ≥ p) then
        (some c, matchLength)
      else acc
  | none =>
      if matchLength > acc.2 then (some c, matchLength) else acc

/-- The nested loops of get_item_section (lines 947-958), folding gisStep
over possible_sections_list. -/
def gisSelect (possible : List (Nat × List ReMatch)) (positions : List Int) :
    Option (Nat × ReMatch) × Nat :=
  possible.foldl
    (fun acc om => om.2.foldl (fun a m => gisStep positions a (om.1, m)) acc)
    (none, 0)

/-- ExtractItems.get_item_section: pick the maximal candidate, slice the
section from the match start to the start of the next heading
(regs[1][0]), and append the new boundary position. -/
def get_item_section (possible : List (Nat × List ReMatch)) (text : String)
    (positions : List Int) : String × List Int :=
  match (gisSelect possible positions).1 with
  | none => ("", positions)
  | some (offset, m) =>
      let sect :=
        match positions.getLast? with
        | some p =>
            if (offset : Int) + m.mstart ≥ p then
              pySliceNat text (offset + m.mstart) (offset + m.g1start)
            else ""
        | none => pySliceNat text (offset + m.mstart) (offset + m.g1start)
      (sect, positions ++ [appendPos offset m])

/-- Flattening of possible_sections_list in the iteration order of the two
nested loops of get_item_section. -/
def candidates (possible : List (Nat × List ReMatch)) : List (Nat × ReMatch) :=
  (possible.map (fun om => om.2.map (fun m => (om.1, m)))).flatten

/-- Eligibility of a candidate with respect to the positions ledger:
its absolute start offset is at least the last recorded position (always
eligible when no position has been recorded). -/
def eligB (positions : List Int) (c : Nat × ReMatch) : Bool :=
  match positions.getLast? with
  | some p => decide ((c.1 : Int) + c.2.mstart ≥ p)
  | none => true

/-! ## ExtractItems.get_last_item_section (lines 974-1010) -/

/-- The loop of get_last_item_section: iterate over the finditer matches of
the item heading; when the index is the reserved SIGNATURE identifier all
but the last occurrence are skipped (Python: item != item_list[-1],
identity comparison, encoded by the running index); otherwise the first
occurrence whose start respects the positions ledger is taken and the
stripped suffix of the text from it is returned. -/
def glisLoop (isSig : Bool) (text : String) (positions : List Int)
    (total : Nat) : Nat → List ReMatch → String
  | _, [] => ""
  | idx, m :: rest =>
      if isSig && (idx + 1 != total) then
        glisLoop isSig text positions total (idx + 1) rest
      else if !positions.isEmpty then
        if (m.mstart : Int) ≥ positions.getLastD 0 then
          pyStrip (pySuffix text m.mstart)
        else glisLoop isSig text positions total (idx + 1) rest
      else pyStrip (pySuffix text m.mstart)

/-! ## The regex oracle

The four finditer calls of parse_item / get_last_item_section are
represented by an oracle supplying their result lists:
- occ i: finditer of the adjusted heading pattern of item i over text
  (line 880);
- possCS i n offset / possCI i n offset: the case-sensitive (line 892)
  and case-insensitive (line 900) finditer of the two-heading pattern of
  items i and n over text[offset:];
- lastOcc i: finditer of the open-ended pattern of item i over text
  (line 991). -/
structure ReOracle where
  occ : String → List ReMatch
  possCS : String → String → Nat → List ReMatch
  possCI : String → String → Nat → List ReMatch
  lastOcc : String → List ReMatch

/-- ExtractItems.get_last_item_section. -/
def get_last_item_section (O : ReOracle) (itemIndex : String) (text : String)
    (positions : List Int) : String :=
  glisLoop (hasSub itemIndex "SIGNATURE") text positions
    (O.lastOcc itemIndex).length 0 (O.lastOcc itemIndex)

/-! ## ExtractItems.parse_item (lines 833-922) -/

/-- Test of line 858 / line 874: the identifier contains "part" but its
adjusted pattern does not contain "PART", i.e. it is a compound
part__item identifier. -/
def isPartCompound (s : String) : Bool := hasSub s "part" && hasSub s "__"

/-- Python item_index.split("a sep")[0] specialised to the part separator:
the part prefix of a compound identifier (the identifier itself when no
separator occurs). -/
def partNumber (s : String) : String := pySplitHead s "__"

/-- Mutable local state of the parse_item loop. -/
structure ParseState where
  possList : List (Nat × List ReMatch)
  impossible : Option ReMatch
  lastItem : Bool
deriving Repr

/-- Lines 892-904: the case-sensitive two-heading search, falling back to
the case-insensitive one when it finds nothing. -/
def parsePoss (O : ReOracle) (itemIndex nextIndex : String) (offset : Nat) :
    List ReMatch :=
  let p := O.possCS itemIndex nextIndex offset
  if p.isEmpty then O.possCI itemIndex nextIndex offset else p

/-- Body of the inner loop over the occurrence matches (lines 886-909),
for one occurrence match that is not skipped by ignore_matches. -/
def occStep (O : ReOracle) (itemIndex nextIndex lastIndex : String)
    (st : ParseState) (m : ReMatch) : ParseState :=
  let offset := m.mstart
  let poss := parsePoss O itemIndex nextIndex offset
  if !poss.isEmpty then
    { st with possList := st.possList ++ [(offset, poss)] }
  else if nextIndex == lastIndex && st.possList.isEmpty then
    { st with impossible := some m }
  else st

/-- The inner loop over enumerate(matches) (line 886), skipping the first
ignore_matches occurrences. -/
def occLoop (O : ReOracle) (itemIndex nextIndex lastIndex : String)
    (ignore : Nat) : Nat → List ReMatch → ParseState → ParseState
  | _, [], st => st
  | i, m :: rest, st =>
      occLoop O itemIndex nextIndex lastIndex ignore (i + 1) rest
        (if i < ignore then st else occStep O itemIndex nextIndex lastIndex st m)

/-- The outer loop over next_item_list (lines 865-909).  When the next
identifier is a compound part identifier of a different part than the
current item the loop breaks with last_item set (lines 874-878; the code
reads item_index_part_number there, which Python only bound when the
current item is itself compound — theorems about this path assume the
compound current item, matching the reachable calls). -/
def parseLoop (O : ReOracle) (itemIndex itemPartNo lastIndex : String)
    (ignore : Nat) : List String → ParseState → ParseState
  | [], st => st
  | n :: rest, st =>
      let st := { st with lastItem := false }
      if !st.possList.isEmpty then st
      else
        let st := if n == lastIndex then { st with lastItem := true } else st
        if isPartCompound n && partNumber n != itemPartNo then
          { st with lastItem := true }
        else
          parseLoop O itemIndex itemPartNo lastIndex ignore rest
            (occLoop O itemIndex n lastIndex ignore 0 (O.occ itemIndex) st)

/-- ExtractItems.parse_item: resolve one item against the candidate next
headings, then apply the open-ended fallbacks of lines 911-922.
items_list is the instance attribute self.items_list. -/
def parse_item (O : ReOracle) (itemsList : List String) (text : String)
    (itemIndex : String) (nextItemList : List String) (positions : List Int)
    (ignoreMatches : Nat) : String × List Int :=
  let itemPartNo := partNumber itemIndex
  let lastIndex := nextItemList.getLastD ""
  let st := parseLoop O itemIndex itemPartNo lastIndex ignoreMatches
      nextItemList ⟨[], none, true⟩
  let r := get_item_section st.possList text positions
  let positions := r.2
  let itemSection :=
    if !positions.isEmpty then
      let s1 :=
        if itemsList.contains itemIndex && r.1 == "" then
          get_last_item_section O itemIndex text positions
        else r.1
      if itemIndex == "SIGNATURE" then
        get_last_item_section O itemIndex text positions
      else s1
    else if st.impossible.isSome || st.lastItem then
      if itemsList.contains itemIndex then
        get_last_item_section O itemIndex text positions
      else r.1
    else r.1
  (itemSection, positions)

/-! ## Item schemas (src/item_lists.py) -/

def item_list_10k : List String :=
  ["1", "1A", "1B", "1C", "2", "3", "4", "5", "6", "7", "7A", "8", "9",
   "9A", "9B", "9C", "10", "11", "12", "13", "14", "15", "16", "SIGNATURE"]

def item_list_8k : List String :=
  ["1.01", "1.02", "1.03", "1.04", "1.05", "2.01", "2.02", "2.03", "2.04",
   "2.05", "2.06", "3.01", "3.02", "3.03", "4.01", "4.02", "5.01", "5.02",
   "5.03", "5.04", "5.05", "5.06", "5.07", "5.08", "6.01", "6.02", "6.03",
   "6.04", "6.05", "7.01", "8.01", "9.01", "SIGNATURE"]

def item_list_8k_obsolete : List String :=
  ["1", "2", "3", "4", "5", "6", "7", "8", "9", "10", "11", "12",
   "SIGNATURE"]

def item_list_10q : List String :=
  ["part_1__1", "part_1__2", "part_1__3", "part_1__4", "part_2__1",
   "part_2__1A", "part_2__2", "part_2__3", "part_2__4", "part_2__5",
   "part_2__6", "SIGNATURE"]

def item_list_form3 : List String :=
  ["1", "2", "3", "4", "5", "Table I", "Table II", "Notes", "Remarks",
   "SIGNATURE"]

def item_list_form4 : List String :=
  ["1", "2", "3", "4", "5", "Table I", "Table II", "Notes", "Remarks",
   "SIGNATURE"]

def item_list_sc13d : List String :=
  ["1", "2", "3", "4", "5", "6", "7", "SIGNATURE"]

def item_list_sc13g : List String :=
  ["1", "2", "3", "4", "5", "6", "7", "SIGNATURE"]

/-! ## ExtractItems.determine_items_to_extract (lines 172-209) -/

/-- A calendar date as produced by pd.to_datetime of a filing date. -/
structure PyDate where
  year : Nat
  month : Nat
  day : Nat
deriving Repr, DecidableEq

/-- Chronological comparison of calendar dates (pd.Timestamp comparison). -/
def dateLt (a b : PyDate) : Bool :=
  decide (a.year < b.year ∨ (a.year = b.year ∧
    (a.month < b.month ∨ (a.month = b.month ∧ a.day < b.day))))

/-- The 8-K schema cutoff pd.to_datetime("2004-08-23"). -/
def obsolete_cutoff_date_8k : PyDate := ⟨2004, 8, 23⟩

/-- The filing types given a schema by determine_items_to_extract. -/
def knownFilingTypes : List String :=
  ["10-K", "8-K", "10-Q", "3", "4", "SC13D", "SC13D/A", "SC13G", "SC13G/A"]

/-- The if/elif chain of determine_items_to_extract assigning items_list
(lines 179-198); none encodes the raised unsupported-type exception. -/
def filing_type_schema (ty : String) (date : PyDate) : Option (List String) :=
  if ty == "10-K" then some item_list_10k
  else if ty == "8-K" then
    some (if dateLt obsolete_cutoff_date_8k date then item_list_8k
          else item_list_8k_obsolete)
  else if ty == "10-Q" then some item_list_10q
  else if ty == "3" then some item_list_form3
  else if ty == "4" then some item_list_form4
  else if ty == "SC13D" || ty == "SC13D/A" then some item_list_sc13d
  else if ty == "SC13G" || ty == "SC13G/A" then some item_list_sc13g
  else none

/-- ExtractItems.determine_items_to_extract.  The instance state
self.items_to_extract before the call is the last argument (the empty
list encodes the falsy unset value); on success the result is the pair
(self.items_list, self.items_to_extract) after the call, and the raised
exceptions are returned as Except.error. -/
def determine_items_to_extract (ty : String) (date : PyDate)
    (itemsToExtract : List String) : Except String (List String × List String) :=
  match filing_type_schema ty date with
  | none => Except.error ("Unsupported filing type: " ++ ty)
  | some itemsList =>
      if !itemsToExtract.isEmpty then
        let overlappingItems := itemsToExtract.filter (fun i => itemsList.contains i)
        if !overlappingItems.isEmpty then Except.ok (itemsList, overlappingItems)
        else Except.error ("Items defined by user do not match items for " ++ ty)
      else Except.ok (itemsList, itemsList)

/-- The persistent effect of determine_items_to_extract on the instance
attribute self.items_to_extract, as invoked once per filing by
process_filing (line 1274). -/
def items_to_extract_step (state : List String) (ty : String) (date : PyDate) :
    Except String (List String) :=
  (determine_items_to_extract ty date state).map (fun r => r.2)

/-! ## ExtractItems.calculate_table_character_percentages (lines 618-642) -/

/-- ExtractItems.calculate_table_character_percentages, with real division
modelled in the rationals. -/
def calculate_table_character_percentages (tableText : String) : ℚ × ℚ :=
  let digits : Nat := (tableText.toList.filter Char.isDigit).length
  let spaces : Nat := (tableText.toList.filter Char.isWhitespace).length
  let n : Nat := tableText.toList.length
  let nonBlankDigitsPercentage : ℚ :=
    if n - spaces ≠ 0 then (digits : ℚ) / ((n - spaces : Nat) : ℚ) else 0
  let spacesPercentage : ℚ :=
    if n ≠ 0 then (spaces : ℚ) / (n : ℚ) else 0
  (nonBlankDigitsPercentage, spacesPercentage)

/-! ## Output-record assembly (ExtractItems.extract_items, lines 1216-1253)

The per-item loop of extract_items is embedded with the per-item processed
section text abstracted as a function sectionOf — for each identifier it
stands for remove_multiple_lines(item_section.strip()) of the section the
resolution pass produced for that identifier (line 1237), which is fully
determined by the filing.  The loop records, for every identifier that is
in items_to_extract, one key/value pair in the JSON record and tracks the
all_items_null flag. -/

/-- The JSON key written for an item identifier (lines 1243-1249). -/
def itemKey (includeSignature : Bool) (itemIndex : String) : String :=
  if itemIndex == "SIGNATURE" && includeSignature then itemIndex
  else if hasSub itemIndex "part" then
    partNumber itemIndex ++ "_item_" ++ pySplitSnd itemIndex "__"
  else "item_" ++ itemIndex

/-- The loop over self.items_list of extract_items, accumulating the item
entries of json_content and the all_items_null flag. -/
def extract_items_loop (itemsToExtract : List String) (includeSignature : Bool)
    (sectionOf : String → String) :
    List String → List (String × String) × Bool → List (String × String) × Bool
  | [], acc => acc
  | i :: rest, acc =>
      let s := sectionOf i
      let acc :=
        if itemsToExtract.contains i then
          (acc.1 ++ [(itemKey includeSignature i, s)], acc.2 && (s == ""))
        else acc
      extract_items_loop itemsToExtract includeSignature sectionOf rest acc

/-- ExtractItems.extract_items, restricted to the item entries of the JSON
record: none models the return None taken when all_items_null holds
(lines 1251-1253), some gives the item entries of the returned record. -/
def extract_items_record (itemsList itemsToExtract : List String)
    (includeSignature : Bool) (sectionOf : String → String) :
    Option (List (String × String)) :=
  let r := extract_items_loop itemsToExtract includeSignature sectionOf
      itemsList ([], true)
  if r.2 then none else some r.1

/-- ExtractItems.process_filing (lines 1261-1298): the Nat is the return
value, the Option is the JSON content written to disk (none when no file
is written). -/
def process_filing (skipExtractedFilings alreadyExtracted : Bool)
    (itemsList itemsToExtract : List String) (includeSignature : Bool)
    (sectionOf : String → String) : Nat × Option (List (String × String)) :=
  if skipExtractedFilings && alreadyExtracted then (0, none)
  else
    match extract_items_record itemsList itemsToExtract includeSignature sectionOf with
    | some j => (1, some j)
    | none => (0, none)

/-! ## The 10-Q part partitioner (lines 1012-1123)

The Python dict of part texts is embedded as an association list with
dict-style first-key lookup and in-place update. -/

/-- Python texts[k] (the read keys are always present in the flows below;
a missing key defaults to the empty string). -/
def dGet (d : List (String × String)) (k : String) : String :=
  ((d.find? (fun kv => kv.1 == k)).map (fun kv => kv.2)).getD ""

/-- Python texts[k] = v. -/
def dSet (d : List (String × String)) (k v : String) : List (String × String) :=
  if d.any (fun kv => kv.1 == k) then
    d.map (fun kv => if kv.1 == k then (k, v) else kv)
  else d ++ [(k, v)]

/-- Lines 1092-1096 of get_10q_parts: the distinct part prefixes of the
schema in first-occurrence order. -/
def derive_parts (itemsList : List String) : List String :=
  itemsList.foldl (fun ps item =>
    let part := pySplitHead item "__"
    if ps.contains part then ps else ps ++ [part]) []

/-- The loop of parse_10q_parts: each part is resolved against the later
parts as its mini-schema; self.items_list equals the parts list during
these calls (it was reassigned at line 1097). -/
def parse_10q_parts_loop (O : ReOracle) (partsAll : List String)
    (text : String) (ignore : Nat) :
    List String → List (String × String) → List Int →
    List (String × String) × List Int
  | [], texts, pps => (texts, pps)
  | p :: rest, texts, pps =>
      let r := parse_item O partsAll text p rest pps ignore
      parse_10q_parts_loop O partsAll text ignore rest (texts ++ [(p, r.1)]) r.2

/-- ExtractItems.parse_10q_parts (lines 1012-1035). -/
def parse_10q_parts (O : ReOracle) (parts : List String) (text : String)
    (ignore : Nat) : List (String × String) × List Int :=
  parse_10q_parts_loop O parts text ignore parts [] []

/-- ExtractItems.check_10q_parts_for_bugs (lines 1037-1077); the logging
calls carry no data flow and are dropped. -/
def check_10q_parts_for_bugs (text : String) (texts : List (String × String))
    (partPositions : List Int) : List (String × String) :=
  if partPositions.isEmpty || texts.isEmpty then texts
  else if (dGet texts "part_1" == "") && !partPositions.isEmpty then
    dSet texts "part_1"
      (pyPrefix text (partPositions.headD 0 - ((dGet texts "part_2").length : Int)))
  else if partPositions.length > 1 then
    if partPositions.getD 1 0 - ((dGet texts "part_2").length : Int)
        - partPositions.headD 0 > 200 then
      dSet texts "part_1" (pySliceInt text
        (partPositions.headD 0 - ((dGet texts "part_1").length : Int))
        (partPositions.getD 1 0 - ((dGet texts "part_2").length : Int)))
    else texts
  else texts

/-- Python len(texts["part_2"]) - len(texts["part_1"]). -/
def lengthDifference (texts : List (String × String)) : Int :=
  ((dGet texts "part_2").length : Int) - ((dGet texts "part_1").length : Int)

/-- The body of one while-loop iteration of get_10q_parts (lines
1106-1108): re-parse the parts skipping the given number of leading
occurrences, clear part_1, and run the bug check. -/
def loopTexts (O : ReOracle) (parts : List String) (text : String)
    (ignore : Nat) : List (String × String) :=
  check_10q_parts_for_bugs text
    (dSet (parse_10q_parts O parts text ignore).1 "part_1" "")
    (parse_10q_parts O parts text ignore).2

/-- The while loop of get_10q_parts (lines 1103-1120), written with an
explicit fuel argument: none is returned only when the fuel runs out
before the loop exits, and the termination theorem shows some fuel always
suffices. -/
def get_10q_loop (O : ReOracle) (parts : List String) (text : String) :
    Nat → List (String × String) → Int → Nat → Option (List (String × String))
  | 0, _, _, _ => none
  | fuel + 1, texts, ld, ignore =>
      if ld > 5000 then
        let texts1 := loopTexts O parts text ignore
        let newLd := lengthDifference texts1
        if newLd == ld then
          let r0 := parse_10q_parts O parts text 0
          some (check_10q_parts_for_bugs text r0.1 r0.2)
        else get_10q_loop O parts text fuel texts1 newLd (ignore + 1)
      else some texts

/-- ExtractItems.get_10q_parts (lines 1079-1123). -/
def get_10q_parts (O : ReOracle) (itemsList : List String) (text : String)
    (fuel : Nat) : Option (List (String × String)) :=
  let parts := derive_parts itemsList
  let r := parse_10q_parts O parts text 0
  let texts := check_10q_parts_for_bugs text r.1 r.2
  get_10q_loop O parts text fuel texts (lengthDifference texts) 1

/-! ## Spec-side selection rule (for claim C1)

The following definitions follow the words of the specification, not the
code, and are compared with get_item_section. -/

/-- Modelled from the spec sentence on tie-break precision: span length is
computed from the start of the current heading match to the start of the
next heading match, not including the next heading's own text. -/
def specLen (m : ReMatch) : Nat := m.g1start - m.mstart

/-- Modelled from the spec disambiguation rule: among all candidate spans,
select the one with the largest specLen whose start offset respects the
monotonic position, the first encountered in order winning ties. -/
def specSelect (positions : List Int) (cands : List (Nat × ReMatch)) :
    Option (Nat × ReMatch) :=
  cands.foldl (fun acc c =>
    match acc with
    | none => if eligB positions c then some c else none
    | some b =>
        if eligB positions c && specLen b.2 < specLen c.2 then some c else some b)
    none

/-- Modelled from the spec: the section text the disambiguation rule of
the spec would return (empty when no candidate is eligible). -/
def spec_item_section (possible : List (Nat × List ReMatch)) (text : String)
    (positions : List Int) : String :=
  match specSelect positions (candidates possible) with
  | none => ""
  | some om => pySliceNat text (om.1 + om.2.mstart) (om.1 + om.2.g1start)

/-! ## Characterisation of the selection loop of get_item_section -/

/-- One gisStep update in guarded form: the candidate replaces the running
maximum exactly when it is strictly longer (by match length, i.e.
match.end() - match.start()) and eligible. -/
theorem gisStep_eq (positions : List Int) (acc : Option (Nat × ReMatch) × Nat)
    (c : Nat × ReMatch) :
    gisStep positions acc c =
      if codeLen c.2 > acc.2 ∧ eligB positions c = true then (some c, codeLen c.2)
      else acc := by
  unfold gisStep eligB
  rcases h : positions.getLast? with _ | p <;> simp [h]

/-- The running maximum of the selection fold dominates the initial value
and the match length of every eligible candidate. -/
theorem gis_foldl_le (positions : List Int) (xs : List (Nat × ReMatch))
    (b : Option (Nat × ReMatch)) (L : Nat) :
    L ≤ (xs.foldl (gisStep positions) (b, L)).2 ∧
    ∀ d ∈ xs, eligB positions d = true →
      codeLen d.2 ≤ (xs.foldl (gisStep positions) (b, L)).2 := by
  induction xs generalizing b L with
  | nil => simp
  | cons c rest ih =>
    rw [List.foldl_cons, gisStep_eq]
    by_cases h : codeLen c.2 > L ∧ eligB positions c = true
    · rw [if_pos h]
      refine ⟨le_trans (le_of_lt h.1) (ih _ _).1, ?_⟩
      intro d hd hde
      rcases List.mem_cons.mp hd with rfl | hd
      · exact (ih _ _).1
      · exact (ih _ _).2 d hd hde
    · rw [if_neg h]
      refine ⟨(ih b L).1, ?_⟩
      intro d hd hde
      rcases List.mem_cons.mp hd with rfl | hd
      · have hle : ¬ codeLen d.2 > L := fun hgt => h ⟨hgt, hde⟩
        exact le_trans (not_lt.mp hle) (ih b L).1
      · exact (ih b L).2 d hd hde

/-- When the selection fold ends on some candidate that is not the initial
one, that candidate is an eligible member whose match length is the final
maximum, strictly above the initial value, and it is the first candidate
in iteration order among those reaching the maximum. -/
theorem gis_foldl_sel (positions : List Int) (xs : List (Nat × ReMatch))
    (b : Option (Nat × ReMatch)) (L : Nat) (c : Nat × ReMatch) (M : Nat)
    (hfold : xs.foldl (gisStep positions) (b, L) = (some c, M)) :
    (b = some c ∧ M = L) ∨
    (c ∈ xs ∧ eligB positions c = true ∧ codeLen c.2 = M ∧ L < M ∧
      ∃ pre post, xs = pre ++ c :: post ∧
        ∀ d ∈ pre, eligB positions d = true → codeLen d.2 < M) := by
  induction xs generalizing b L with
  | nil =>
    left
    simp only [List.foldl_nil, Prod.mk.injEq] at hfold
    exact ⟨hfold.1, hfold.2.symm⟩
  | cons x rest ih =>
    rw [List.foldl_cons, gisStep_eq] at hfold
    by_cases h : codeLen x.2 > L ∧ eligB positions x = true
    · rw [if_pos h] at hfold
      rcases ih _ _ hfold with ⟨hbc, hML⟩ | ⟨hmem, helig, hlen, hLM, pre, post, heq, hpre⟩
      · injection hbc with hxc
        subst hxc
        right
        refine ⟨List.mem_cons_self _ _, h.2, hML.symm, hML ▸ h.1, [], rest, rfl, ?_⟩
        intro d hd
        simp at hd
      · right
        refine ⟨List.mem_cons_of_mem _ hmem, helig, hlen, lt_trans h.1 hLM,
          x :: pre, post, by simp [heq], ?_⟩
        intro d hd hde
        rcases List.mem_cons.mp hd with rfl | hd
        · exact hLM
        · exact hpre d hd hde
    · rw [if_neg h] at hfold
      rcases ih _ _ hfold with ⟨hbc, hML⟩ | ⟨hmem, helig, hlen, hLM, pre, post, heq, hpre⟩
      · exact Or.inl ⟨hbc, hML⟩
      · right
        refine ⟨List.mem_cons_of_mem _ hmem, helig, hlen, hLM,
          x :: pre, post, by simp [heq], ?_⟩
        intro d hd hde
        rcases List.mem_cons.mp hd with rfl | hd
        · have hle : ¬ codeLen d.2 > L := fun hgt => h ⟨hgt, hde⟩
          exact lt_of_le_of_lt (not_lt.mp hle) hLM
        · exact hpre d hd hde

/-- The nested loops of gisSelect coincide with the fold over the
flattened candidate list. -/
theorem gisSelect_eq_foldl (possible : List (Nat × List ReMatch))
    (positions : List Int) :
    gisSelect possible positions =
      (candidates possible).foldl (gisStep positions) (none, 0) := by
  suffices h : ∀ (ps : List (Nat × List ReMatch)) (init : Option (Nat × ReMatch) × Nat),
      ps.foldl (fun acc om => om.2.foldl (fun a m => gisStep positions a (om.1, m)) acc) init
        = (candidates ps).foldl (gisStep positions) init by
    exact h possible (none, 0)
  intro ps
  induction ps with
  | nil => intro init; rfl
  | cons om rest ih =>
    intro init
    simp only [candidates, List.map_cons, List.flatten_cons, List.foldl_cons,
      List.foldl_append, List.foldl_map]
    exact ih _

/-! ## Claim C1 -/

/-- A document on which the two length notions disagree.  The regex of
parse_item finds the heading of item 1 at offsets 0 and 43; the
two-heading searches over text[0:] produce the matches (0,41,33,41) and
(43,92,74,92) and the search over text[43:] produces (0,49,31,49): the
second candidate has the larger overall match length (49, because the
next heading "ITEM 2" is indented by ten spaces that its match consumes)
while the first has the larger heading-start-to-heading-start span
(33 versus 31). -/
def cexText : String :=
  "\nITEM 1. aaaaaaaaaaaaaaaaaaaaaaaa\nITEM 2. x\nITEM 1. bbbbbbbbbbbbbbbbbbbbbb\n          ITEM 2. y"

/-- The possible_sections_list parse_item builds on cexText for item 1
with next item 2. -/
def cexPossible : List (Nat × List ReMatch) :=
  [(0, [⟨0, 41, 33, 41⟩, ⟨43, 92, 74, 92⟩]), (43, [⟨0, 49, 31, 49⟩])]

/-- Claim C1, counterexample: on cexPossible the selection rule stated by
the spec (largest span measured to the start of the next heading match,
excluding the next heading's own text) picks the first ITEM 1 section,
but get_item_section returns the second one, because the code compares
match.end() - match.start(), which includes the matched next-heading
text. -/
theorem C1_counterexample :
    spec_item_section cexPossible cexText [] = "\nITEM 1. aaaaaaaaaaaaaaaaaaaaaaaa" ∧
    (get_item_section cexPossible cexText []).1 = "\nITEM 1. bbbbbbbbbbbbbbbbbbbbbb" ∧
    (get_item_section cexPossible cexText []).1 ≠ spec_item_section cexPossible cexText [] :=
  ⟨by decide, by decide, by decide⟩

/-- Claim C1 (amended): for every call of get_item_section whose selection
loop settles on a candidate, that candidate is an eligible member of the
candidate list (start offset at least the last recorded position, when
any), its length is maximal among all eligible candidates, and it is the
first encountered in iteration order among those of maximal length — but
the length compared is the full match length, from the start of the
current heading match to the END of the next heading match, including the
next heading's own matched text; the returned section is the slice of the
text from the candidate's heading start to the start of its next heading
match. -/
theorem C1_selection_amended (possible : List (Nat × List ReMatch))
    (text : String) (positions : List Int) (offset : Nat) (m : ReMatch)
    (hsel : (gisSelect possible positions).1 = some (offset, m)) :
    (offset, m) ∈ candidates possible ∧
    eligB positions (offset, m) = true ∧
    0 < codeLen m ∧
    (∀ d ∈ candidates possible, eligB positions d = true → codeLen d.2 ≤ codeLen m) ∧
    (∃ pre post, candidates possible = pre ++ (offset, m) :: post ∧
      ∀ d ∈ pre, eligB positions d = true → codeLen d.2 < codeLen m) ∧
    (get_item_section possible text positions).1 =
      pySliceNat text (offset + m.mstart) (offset + m.g1start) := by
  have hq := gisSelect_eq_foldl possible positions
  have hfold : (candidates possible).foldl (gisStep positions) (none, 0) =
      (some (offset, m), (gisSelect possible positions).2) := by
    rw [← hq, ← hsel]
  rcases gis_foldl_sel positions (candidates possible) none 0 (offset, m)
      (gisSelect possible positions).2 hfold with ⟨hcon, _⟩ | h
  · exact absurd hcon (by simp)
  · obtain ⟨hmem, helig, hlen, hpos, pre, post, heq, hpre⟩ := h
    have hmax := (gis_foldl_le positions (candidates possible) none 0).2
    rw [hfold] at hmax
    refine ⟨hmem, helig, hlen ▸ hpos, ?_, ?_, ?_⟩
    · intro d hd hde
      exact hlen ▸ hmax d hd hde
    · exact ⟨pre, post, heq, fun d hd hde => hlen ▸ hpre d hd hde⟩
    · unfold get_item_section
      rw [hsel]
      rcases hp : positions.getLast? with _ | p
      · simp
      · have : ((offset : Int) + m.mstart ≥ p) := by
          have := helig
          unfold eligB at this
          rw [hp] at this
          exact of_decide_eq_true this
        simp [this]

/-- Witness for C1_selection_amended at the concrete counterexample
input: the selected candidate is the long-match one at offset 0 with
match (43,92,74,92). -/
theorem C1_selection_amended_witness :
    (0, (⟨43, 92, 74, 92⟩ : ReMatch)) ∈ candidates cexPossible ∧
    eligB [] (0, (⟨43, 92, 74, 92⟩ : ReMatch)) = true ∧
    0 < codeLen ⟨43, 92, 74, 92⟩ ∧
    (∀ d ∈ candidates cexPossible, eligB [] d = true →
      codeLen d.2 ≤ codeLen ⟨43, 92, 74, 92⟩) ∧
    (∃ pre post, candidates cexPossible = pre ++ (0, (⟨43, 92, 74, 92⟩ : ReMatch)) :: post ∧
      ∀ d ∈ pre, eligB [] d = true → codeLen d.2 < codeLen ⟨43, 92, 74, 92⟩) ∧
    (get_item_section cexPossible cexText []).1 =
      pySliceNat cexText (0 + 43) (0 + 74) :=
  C1_selection_amended cexPossible cexText [] 0 ⟨43, 92, 74, 92⟩ (by decide)

/-! ## Claim C2 -/

/-- Membership in the flattened candidate list comes from membership in
possible_sections_list. -/
theorem mem_candidates (possible : List (Nat × List ReMatch)) (o : Nat)
    (m : ReMatch) (h : (o, m) ∈ candidates possible) :
    ∃ l, (o, l) ∈ possible ∧ m ∈ l := by
  unfold candidates at h
  rw [List.mem_flatten] at h
  obtain ⟨sub, hsub, hmem⟩ := h
  rw [List.mem_map] at hsub
  obtain ⟨om, hom, rfl⟩ := hsub
  rw [List.mem_map] at hmem
  obtain ⟨mm, hmm, heq⟩ := hmem
  obtain ⟨h1, h2⟩ := Prod.mk.injEq .. ▸ heq
  exact ⟨om.2, by rw [← h1]; exact hom, by rw [← h2]; exact hmm⟩

/-- Claim C2: when the positions ledger is non-empty with last entry p,
one call of get_item_section either leaves the ledger unchanged or
appends a single position strictly greater than p, and the span it
extracts starts at or after p; and every non-empty section returned by
the loop of get_last_item_section is a suffix starting at or after p.
(The well-formedness hypothesis states the structural shape of real
regex matches of the two-heading pattern.) -/
theorem C2_monotonic_positions (possible : List (Nat × List ReMatch))
    (text : String) (positions : List Int) (p : Int)
    (hWF : ∀ om ∈ possible, ∀ mm ∈ om.2, WFMatch mm)
    (hlast : positions.getLast? = some p) :
    ((get_item_section possible text positions).2 = positions ∨
      ∃ offset m, (offset, m) ∈ candidates possible ∧
        (get_item_section possible text positions).2 =
          positions ++ [appendPos offset m] ∧
        p < appendPos offset m ∧
        p ≤ (offset : Int) + m.mstart ∧
        (get_item_section possible text positions).1 =
          pySliceNat text (offset + m.mstart) (offset + m.g1start)) ∧
    (∀ (isSig : Bool) (ms : List ReMatch) (total idx : Nat),
      glisLoop isSig text positions total idx ms = "" ∨
      ∃ m ∈ ms, glisLoop isSig text positions total idx ms =
          pyStrip (pySuffix text m.mstart) ∧ p ≤ (m.mstart : Int)) := by
  constructor
  · rcases hsel : (gisSelect possible positions).1 with _ | ⟨offset, m⟩
    · left
      unfold get_item_section
      rw [hsel]
    · right
      refine ⟨offset, m, ?_⟩
      have hq := gisSelect_eq_foldl possible positions
      have hfold : (candidates possible).foldl (gisStep positions) (none, 0) =
          (some (offset, m), (gisSelect possible positions).2) := by
        rw [← hq, ← hsel]
      rcases gis_foldl_sel positions (candidates possible) none 0 (offset, m)
          (gisSelect possible positions).2 hfold with ⟨hcon, _⟩ | h
      · exact absurd hcon (by simp)
      · obtain ⟨hmem, helig, _, _, _⟩ := h
        have hstart : p ≤ (offset : Int) + m.mstart := by
          unfold eligB at helig
          rw [hlast] at helig
          exact of_decide_eq_true helig
        obtain ⟨l, hl, hml⟩ := mem_candidates possible offset m hmem
        have hwf := hWF (offset, l) hl m hml
        obtain ⟨hwf1, hwf2, hwf3⟩ := hwf
        have happ : p < appendPos offset m := by
          unfold appendPos
          have hc : ((m.g1stop - m.g1start : Nat) : Int) =
              (m.g1stop : Int) - m.g1start := by
            omega
          rw [hc, hwf3]
          omega
        refine ⟨hmem, ?_, happ, hstart, ?_⟩
        · unfold get_item_section
          rw [hsel]
        · unfold get_item_section
          rw [hsel, hlast]
          simp [hstart]
  · intro isSig ms
    induction ms with
    | nil => intro total idx; left; rfl
    | cons m rest ih =>
      intro total idx
      unfold glisLoop
      by_cases hskip : (isSig && (idx + 1 != total)) = true
      · rw [if_pos hskip]
        rcases ih total (idx + 1) with h | ⟨mm, hmm, heq, hp⟩
        · exact Or.inl h
        · exact Or.inr ⟨mm, List.mem_cons_of_mem _ hmm, heq, hp⟩
      · rw [if_neg hskip]
        have hne : positions.isEmpty = false := by
          cases positions with
          | nil => simp at hlast
          | cons a l => rfl
        have hlastD : positions.getLastD 0 = p := by
          rw [List.getLastD_eq_getLast?, hlast]
          rfl
        rw [hne, hlastD]
        simp only [Bool.not_false, if_true]
        by_cases hge : ((m.mstart : Int) ≥ p)
        · rw [if_pos hge]
          exact Or.inr ⟨m, List.mem_cons_self _ _, rfl, hge⟩
        · rw [if_neg hge]
          rcases ih total (idx + 1) with h | ⟨mm, hmm, heq, hp⟩
          · exact Or.inl h
          · exact Or.inr ⟨mm, List.mem_cons_of_mem _ hmm, heq, hp⟩

/-- Concrete input for the C2 witness: a single well-formed candidate
starting after the last recorded position 2. -/
def w2possible : List (Nat × List ReMatch) := [(0, [⟨4, 14, 10, 14⟩])]

/-- Concrete text for the C2 witness. -/
def w2text : String := "abcdefghijklmnop"

/-- Witness for C2_monotonic_positions at a concrete input. -/
theorem C2_monotonic_positions_witness :
    ((get_item_section w2possible w2text [2]).2 = [2] ∨
      ∃ offset m, (offset, m) ∈ candidates w2possible ∧
        (get_item_section w2possible w2text [2]).2 =
          [2] ++ [appendPos offset m] ∧
        (2 : Int) < appendPos offset m ∧
        (2 : Int) ≤ (offset : Int) + m.mstart ∧
        (get_item_section w2possible w2text [2]).1 =
          pySliceNat w2text (offset + m.mstart) (offset + m.g1start)) ∧
    (∀ (isSig : Bool) (ms : List ReMatch) (total idx : Nat),
      glisLoop isSig w2text [2] total idx ms = "" ∨
      ∃ m ∈ ms, glisLoop isSig w2text [2] total idx ms =
          pyStrip (pySuffix w2text m.mstart) ∧ (2 : Int) ≤ (m.mstart : Int)) :=
  C2_monotonic_positions w2possible w2text [2] 2 (by decide) (by decide)

/-! ## Claim C3 -/

/-- Modelled from the spec: an occurrence is an eligible start for the
open-ended path when it does not precede the last recorded monotonic
position. -/
def eligStart (positions : List Int) (s : Nat) : Bool :=
  match positions.getLast? with
  | some p => decide ((s : Int) ≥ p)
  | none => true

/-- Modelled from the spec: for an ordinary identifier the open-ended path
returns the stripped suffix starting at the first eligible occurrence
(empty when there is none). -/
def firstEligibleSection (text : String) (positions : List Int)
    (ms : List ReMatch) : String :=
  match ms.find? (fun m => eligStart positions m.mstart) with
  | none => ""
  | some m => pyStrip (pySuffix text m.mstart)

/-- Relation between the Bool guards of glisLoop and eligStart. -/
theorem eligStart_split (positions : List Int) (s : Nat) :
    (positions.isEmpty = true ∧ eligStart positions s = true) ∨
    (positions.isEmpty = false ∧
      eligStart positions s = decide ((s : Int) ≥ positions.getLastD 0)) := by
  cases positions with
  | nil => exact Or.inl ⟨rfl, rfl⟩
  | cons a l =>
    right
    refine ⟨rfl, ?_⟩
    unfold eligStart
    rw [List.getLastD_eq_getLast?]
    rcases h : (a :: l).getLast? with _ | p
    · simp at h
    · rfl

/-- In SIGNATURE mode the loop of get_last_item_section only considers the
last occurrence. -/
theorem glisLoop_sig (text : String) (positions : List Int) :
    ∀ (ms : List ReMatch) (idx : Nat),
    glisLoop true text positions (idx + ms.length) idx ms =
      (match ms.getLast? with
       | none => ""
       | some m =>
           if eligStart positions m.mstart then pyStrip (pySuffix text m.mstart)
           else "") := by
  intro ms
  induction ms with
  | nil => intro idx; rfl
  | cons m rest ih =>
    intro idx
    cases rest with
    | nil =>
      unfold glisLoop
      have hskip : (true && (idx + 1 != idx + [m].length)) = false := by simp
      rw [hskip]
      simp only [Bool.false_eq_true, if_false, List.getLast?_singleton]
      rcases eligStart_split positions m.mstart with ⟨he, hel⟩ | ⟨he, hel⟩
      · rw [he, hel]
        rfl
      · rw [he, hel]
        simp only [Bool.not_false, if_true]
        by_cases hge : ((m.mstart : Int) ≥ positions.getLastD 0)
        · rw [if_pos hge, if_pos (decide_eq_true hge)]
        · rw [if_neg hge, if_neg (by simpa using hge)]
          rfl
    | cons r rs =>
      unfold glisLoop
      have hlen : idx + (m :: r :: rs).length = (idx + 1) + (r :: rs).length := by
        simp only [List.length_cons]
        omega
      rw [hlen]
      rw [show (true && (idx + 1 != idx + 1 + (r :: rs).length)) = true from by
        simp only [Bool.true_and, List.length_cons, bne_iff_ne]
        omega]
      rw [if_pos rfl]
      rw [ih (idx + 1)]
      rw [List.getLast?_cons_cons]

/-- In non-SIGNATURE mode the loop of get_last_item_section returns the
first eligible occurrence. -/
theorem glisLoop_nonsig (text : String) (positions : List Int) :
    ∀ (ms : List ReMatch) (total idx : Nat),
    glisLoop false text positions total idx ms =
      firstEligibleSection text positions ms := by
  intro ms
  induction ms with
  | nil => intro total idx; rfl
  | cons m rest ih =>
    intro total idx
    unfold glisLoop firstEligibleSection
    simp only [Bool.false_and, Bool.false_eq_true, if_false]
    have hbeta : ∀ b : Bool,
        eligStart positions m.mstart = b →
        (fun mm : ReMatch => eligStart positions mm.mstart) m = b := fun _ h => h
    rcases eligStart_split positions m.mstart with ⟨he, hel⟩ | ⟨he, hel⟩
    · rw [he]
      simp only [Bool.not_true, Bool.false_eq_true, if_false]
      rw [List.find?_cons_of_pos rest (hbeta true hel)]
    · rw [he]
      simp only [Bool.not_false, if_true]
      by_cases hge : ((m.mstart : Int) ≥ positions.getLastD 0)
      · rw [if_pos hge,
          List.find?_cons_of_pos rest (hbeta true (hel.trans (decide_eq_true hge)))]
      · rw [if_neg hge,
          List.find?_cons_of_neg rest (by
            show ¬ eligStart positions m.mstart = true
            rw [hel.trans (decide_eq_false hge)]
            simp)]
        rw [ih total (idx + 1)]
        rfl

/-- Claim C3: the open-ended extraction of get_last_item_section returns,
for the reserved identifier SIGNATURE, the stripped suffix at the LAST
occurrence of the heading (empty when that occurrence precedes the last
recorded position), and for every other identifier the stripped suffix at
the FIRST occurrence that respects the recorded position. -/
theorem C3_signature_vs_first (O : ReOracle) (text : String)
    (positions : List Int) (itemIndex : String)
    (hns : hasSub itemIndex "SIGNATURE" = false) :
    (get_last_item_section O "SIGNATURE" text positions =
      match (O.lastOcc "SIGNATURE").getLast? with
      | none => ""
      | some m =>
          if eligStart positions m.mstart then pyStrip (pySuffix text m.mstart)
          else "") ∧
    get_last_item_section O itemIndex text positions =
      firstEligibleSection text positions (O.lastOcc itemIndex) := by
  constructor
  · unfold get_last_item_section
    rw [show hasSub "SIGNATURE" "SIGNATURE" = true from by decide]
    have h := glisLoop_sig text positions (O.lastOcc "SIGNATURE") 0
    rw [Nat.zero_add] at h
    exact h
  · unfold get_last_item_section
    rw [hns]
    exact glisLoop_nonsig text positions (O.lastOcc itemIndex)
      (O.lastOcc itemIndex).length 0

/-- Concrete oracle for the C3 witness: item 5 occurs twice, SIGNATURE
occurs twice. -/
def w3oracle : ReOracle :=
  { occ := fun _ => []
    possCS := fun _ _ _ => []
    possCI := fun _ _ _ => []
    lastOcc := fun i =>
      if i == "5" then [⟨3, 9, 7, 9⟩, ⟨20, 30, 27, 30⟩]
      else [⟨2, 8, 6, 8⟩, ⟨15, 25, 22, 25⟩] }

/-- Concrete text for the C3 witness. -/
def w3text : String := "0123456789abcdefghijklmnopqrstuvwxyz"

/-- Witness for C3_signature_vs_first at a concrete input. -/
theorem C3_signature_vs_first_witness :
    (get_last_item_section w3oracle "SIGNATURE" w3text [] =
      match (w3oracle.lastOcc "SIGNATURE").getLast? with
      | none => ""
      | some m =>
          if eligStart [] m.mstart then pyStrip (pySuffix w3text m.mstart)
          else "") ∧
    get_last_item_section w3oracle "5" w3text [] =
      firstEligibleSection w3text [] (w3oracle.lastOcc "5") :=
  C3_signature_vs_first w3oracle w3text [] "5" (by decide)

/-! ## Claim C4 -/

/-- Unfolded shape of the assembly loop of extract_items: the entries are
those of the items that are in items_to_extract, in order, and the
all_items_null flag holds exactly when all their sections are empty. -/
theorem extract_items_loop_spec (ite : List String) (inc : Bool)
    (sOf : String → String) :
    ∀ (l : List String) (acc : List (String × String) × Bool),
    (extract_items_loop ite inc sOf l acc).1 =
      acc.1 ++ (l.filter (fun i => ite.contains i)).map
        (fun i => (itemKey inc i, sOf i)) ∧
    (extract_items_loop ite inc sOf l acc).2 =
      (acc.2 && (l.filter (fun i => ite.contains i)).all
        (fun i => sOf i == "")) := by
  intro l
  induction l with
  | nil => intro acc; simp [extract_items_loop]
  | cons i rest ih =>
    intro acc
    unfold extract_items_loop
    dsimp only
    by_cases hc : ite.contains i = true
    · rw [if_pos hc, List.filter_cons_of_pos hc, List.map_cons,
        List.all_cons]
      have h := ih (acc.1 ++ [(itemKey inc i, sOf i)], acc.2 && (sOf i == ""))
      refine ⟨?_, ?_⟩
      · rw [h.1, List.append_assoc]
        rfl
      · rw [h.2]
        exact Bool.and_assoc ..
    · rw [if_neg hc, List.filter_cons_of_neg hc]
      exact ih acc

/-- The default value of getLastD is irrelevant on a non-empty list. -/
theorem getLastD_default_irrel (a : String) (l : List String) (d1 d2 : String) :
    (a :: l).getLastD d1 = (a :: l).getLastD d2 := by
  rw [List.getLastD_eq_getLast?, List.getLastD_eq_getLast?]
  rcases h : (a :: l).getLast? with _ | x
  · simp at h
  · rfl

/-- With no occurrence of the item heading anywhere, the outer loop of
parse_item only toggles last_item, ending with it true. -/
theorem parseLoop_occ_empty (O : ReOracle) (itemIndex itemPartNo : String)
    (ignore : Nat) (hocc : O.occ itemIndex = []) :
    ∀ (l : List String) (lastIndex : String) (st : ParseState),
    st.possList = [] → l ≠ [] → lastIndex = l.getLastD "" →
    parseLoop O itemIndex itemPartNo lastIndex ignore l st =
      ⟨[], st.impossible, true⟩ := by
  intro l
  induction l with
  | nil => intro lastIndex st _ hne _; exact absurd rfl hne
  | cons n rest ih =>
    intro lastIndex st hposs _ hlast
    obtain ⟨pl, im, li⟩ := st
    dsimp only at hposs
    subst hposs
    unfold parseLoop
    dsimp only
    cases rest with
    | nil =>
      have hsel : (n == lastIndex) = true := by
        rw [hlast]
        simp [List.getLastD]
      rw [if_pos hsel]
      by_cases hpart : (isPartCompound n && partNumber n != itemPartNo) = true
      · rw [if_pos hpart]
        rfl
      · rw [if_neg hpart, hocc]
        rfl
    | cons r rs =>
      have hlast2 : lastIndex = (r :: rs).getLastD "" := by
        rw [hlast, List.getLastD_cons]
        exact (getLastD_default_irrel r rs n "").symm
      by_cases hsel : (n == lastIndex) = true
      · rw [if_pos hsel]
        by_cases hpart : (isPartCompound n && partNumber n != itemPartNo) = true
        · rw [if_pos hpart]
          rfl
        · rw [if_neg hpart, hocc]
          exact ih lastIndex ⟨[], im, true⟩ rfl (by simp) hlast2
      · rw [if_neg hsel]
        by_cases hpart : (isPartCompound n && partNumber n != itemPartNo) = true
        · rw [if_pos hpart]
          rfl
        · rw [if_neg hpart, hocc]
          exact ih lastIndex ⟨[], im, false⟩ rfl (by simp) hlast2

/-- An item whose heading has no occurrence parses to the empty section
with the positions ledger unchanged. -/
theorem parse_item_no_occurrence (O : ReOracle) (itemsList : List String)
    (text : String) (itemIndex : String) (nextItemList : List String)
    (positions : List Int) (ignoreMatches : Nat)
    (hocc : O.occ itemIndex = []) (hlocc : O.lastOcc itemIndex = []) :
    parse_item O itemsList text itemIndex nextItemList positions ignoreMatches =
      ("", positions) := by
  unfold parse_item
  have hst : parseLoop O itemIndex (partNumber itemIndex)
      (nextItemList.getLastD "") ignoreMatches nextItemList ⟨[], none, true⟩ =
      ⟨[], none, true⟩ := by
    cases nextItemList with
    | nil => rfl
    | cons n rest =>
      exact parseLoop_occ_empty O itemIndex (partNumber itemIndex)
        ignoreMatches hocc (n :: rest) _ ⟨[], none, true⟩ rfl (by simp) rfl
  dsimp only
  rw [hst]
  have hgis : get_item_section [] text positions = ("", positions) := rfl
  have hglis : get_last_item_section O itemIndex text positions = "" := by
    unfold get_last_item_section
    rw [hlocc]
    cases h : hasSub itemIndex "SIGNATURE" <;> rfl
  dsimp only
  rw [hgis]
  simp only [hglis]
  by_cases hpos : positions.isEmpty
  · simp [hpos]
  · simp [hpos]

/-- Claim C4: (a) whenever extract_items produces a record, every
identifier of items_to_extract that the schema loop visits contributes
its key to the record, mapped to its (string) section; (b) an identifier
that never occurs in the document yields the empty-string section and the
call returns normally (the compound-part hypothesis excludes the
next-item shapes on which the Python code would stop with a NameError,
which no supported schema produces). -/
theorem C4_completeness_or_emptiness :
    (∀ (itemsList itemsToExtract : List String) (includeSignature : Bool)
        (sectionOf : String → String) (rec : List (String × String))
        (i : String), i ∈ itemsList → itemsToExtract.contains i = true →
      extract_items_record itemsList itemsToExtract includeSignature sectionOf =
        some rec →
      (itemKey includeSignature i, sectionOf i) ∈ rec) ∧
    (∀ (O : ReOracle) (itemsList : List String) (text itemIndex : String)
        (nextItemList : List String) (positions : List Int)
        (ignoreMatches : Nat),
      O.occ itemIndex = [] → O.lastOcc itemIndex = [] →
      (∀ n ∈ nextItemList, isPartCompound n = true →
        isPartCompound itemIndex = true) →
      parse_item O itemsList text itemIndex nextItemList positions
        ignoreMatches = ("", positions)) := by
  constructor
  · intro itemsList ite inc sOf rec i hi hc hrec
    unfold extract_items_record at hrec
    dsimp only at hrec
    have h := extract_items_loop_spec ite inc sOf itemsList ([], true)
    rcases hnull : (extract_items_loop ite inc sOf itemsList ([], true)).2 with _ | _
    · rw [hnull] at hrec
      simp only [Bool.false_eq_true, if_false, Option.some.injEq] at hrec
      rw [← hrec, h.1, List.nil_append]
      rw [List.mem_map]
      exact ⟨i, List.mem_filter.mpr ⟨hi, hc⟩, rfl⟩
    · rw [hnull] at hrec
      simp at hrec
  · intro O itemsList text itemIndex nextItemList positions ignoreMatches
      hocc hlocc _
    exact parse_item_no_occurrence O itemsList text itemIndex nextItemList
      positions ignoreMatches hocc hlocc

/-- Oracle with no matches at all, for the C4 witness. -/
def w4oracle : ReOracle :=
  ⟨fun _ => [], fun _ _ _ => [], fun _ _ _ => [], fun _ => []⟩

/-- Concrete per-item sections for the C4 witness. -/
def w4sections : String → String := fun i => if i == "5" then "hello" else ""

/-- Witness for C4_completeness_or_emptiness at concrete inputs: item 6 is
missing from the document yet present in the record with the empty
string, and parse_item on an absent item returns the empty section. -/
theorem C4_completeness_or_emptiness_witness :
    (itemKey false "6", w4sections "6") ∈ [("item_5", "hello"), ("item_6", "")] ∧
    parse_item w4oracle ["5"] "txt" "7" ["8"] [3] 0 = ("", [3]) :=
  ⟨C4_completeness_or_emptiness.1 ["5", "6"] ["5", "6"] false w4sections
      [("item_5", "hello"), ("item_6", "")] "6" (by decide) (by decide) (by decide),
    C4_completeness_or_emptiness.2 w4oracle ["5"] "txt" "7" ["8"] [3] 0 rfl rfl
      (by decide)⟩

/-! ## Claim C5 -/

/-- Claim C5: when every requested item resolves to an empty section,
extract_items returns no record and process_filing returns 0 and writes
nothing. -/
theorem C5_all_empty_signals_failure (itemsList itemsToExtract : List String)
    (includeSignature : Bool) (sectionOf : String → String)
    (hempty : ∀ i ∈ itemsList, itemsToExtract.contains i = true →
      sectionOf i = "") :
    extract_items_record itemsList itemsToExtract includeSignature sectionOf =
      none ∧
    ∀ (skipExtractedFilings alreadyExtracted : Bool),
      process_filing skipExtractedFilings alreadyExtracted itemsList
        itemsToExtract includeSignature sectionOf = (0, none) := by
  have h := extract_items_loop_spec itemsToExtract includeSignature sectionOf
      itemsList ([], true)
  have hnull : (extract_items_loop itemsToExtract includeSignature sectionOf
      itemsList ([], true)).2 = true := by
    rw [h.2, Bool.true_and, List.all_eq_true]
    intro i hi
    have hm := List.mem_filter.mp hi
    rw [hempty i hm.1 hm.2]
    rfl
  have hrec : extract_items_record itemsList itemsToExtract includeSignature
      sectionOf = none := by
    unfold extract_items_record
    dsimp only
    rw [hnull]
    rfl
  refine ⟨hrec, ?_⟩
  intro sk al
  unfold process_filing
  rw [hrec]
  by_cases hsk : (sk && al) = true
  · rw [if_pos hsk]
  · rw [if_neg hsk]

/-- Witness for C5_all_empty_signals_failure at a concrete input. -/
theorem C5_all_empty_signals_failure_witness :
    extract_items_record ["5"] ["5"] false (fun _ => "") = none ∧
    ∀ (skipExtractedFilings alreadyExtracted : Bool),
      process_filing skipExtractedFilings alreadyExtracted ["5"] ["5"] false
        (fun _ => "") = (0, none) :=
  C5_all_empty_signals_failure ["5"] ["5"] false (fun _ => "") (by decide)

/-! ## Claim C7 -/

/-- find? skips a prefix in which it finds nothing. -/
theorem find?_append_of_none {p : String × String → Bool}
    (l1 l2 : List (String × String)) (h : l1.find? p = none) :
    (l1 ++ l2).find? p = l2.find? p := by
  induction l1 with
  | nil => rfl
  | cons x rest ih =>
    by_cases px : p x = true
    · rw [List.find?_cons_of_pos rest px] at h
      exact absurd h (by simp)
    · rw [List.find?_cons_of_neg rest (by simpa using px)] at h
      rw [List.cons_append, List.find?_cons_of_neg _ (by simpa using px)]
      exact ih h

/-- Reading back the key just written into the Python-dict model. -/
theorem dGet_dSet (d : List (String × String)) (k v : String) :
    dGet (dSet d k v) k = v := by
  unfold dSet
  by_cases hany : d.any (fun kv => kv.1 == k) = true
  · rw [if_pos hany]
    induction d with
    | nil => simp at hany
    | cons kv rest ih =>
      by_cases hk : (kv.1 == k) = true
      · rw [List.map_cons, if_pos hk]
        unfold dGet
        rw [List.find?_cons_of_pos _ (by simp)]
        rfl
      · rw [List.map_cons, if_neg hk]
        unfold dGet
        rw [List.find?_cons_of_neg _ (by simpa using hk)]
        have hr : rest.any (fun kv => kv.1 == k) = true := by
          rcases List.any_eq_true.mp hany with ⟨x, hx, hxk⟩
          rcases List.mem_cons.mp hx with rfl | hx
          · exact absurd hxk hk
          · exact List.any_eq_true.mpr ⟨x, hx, hxk⟩
        exact ih hr
  · rw [if_neg hany]
    have hnone : d.find? (fun kv => kv.1 == k) = none := by
      rw [List.find?_eq_none]
      intro x hx hcon
      exact hany (List.any_eq_true.mpr ⟨x, hx, hcon⟩)
    unfold dGet
    rw [find?_append_of_none d [(k, v)] hnone,
      List.find?_cons_of_pos _ (by simp)]
    rfl

/-- Claim C7: in check_10q_parts_for_bugs, when part_1 was captured
non-empty and the gap between the recorded end of part 1 (first ledger
entry) and the start of the captured part 2 text (second ledger entry
minus the captured length) exceeds 200 characters, part_1 is re-derived
as the text between the start of the captured part 1 text and the start
of the captured part 2 text. -/
theorem C7_gap_exceeds_slack (text : String) (texts : List (String × String))
    (p0 p1 : Int) (rest : List Int)
    (h1 : ¬ dGet texts "part_1" = "")
    (hgap : p1 - ((dGet texts "part_2").length : Int) - p0 > 200) :
    dGet (check_10q_parts_for_bugs text texts (p0 :: p1 :: rest)) "part_1" =
      pySliceInt text (p0 - ((dGet texts "part_1").length : Int))
        (p1 - ((dGet texts "part_2").length : Int)) := by
  have hne : texts.isEmpty = false := by
    cases texts with
    | nil => exact absurd rfl h1
    | cons a l => rfl
  unfold check_10q_parts_for_bugs
  rw [hne]
  simp only [List.isEmpty_cons, Bool.false_eq_true, Bool.or_false, if_false]
  rw [show (dGet texts "part_1" == "") = false from by
    cases hb : (dGet texts "part_1" == "") with
    | false => rfl
    | true => exact absurd (by simpa using hb) h1]
  simp only [Bool.false_and, Bool.false_eq_true, if_false]
  rw [if_pos (by simp : (p0 :: p1 :: rest).length > 1)]
  rw [show (p0 :: p1 :: rest).getD 1 0 = p1 from rfl,
    show (p0 :: p1 :: rest).headD 0 = p0 from rfl]
  rw [if_pos hgap]
  exact dGet_dSet texts "part_1" _

/-- Witness for C7_gap_exceeds_slack at a concrete input. -/
theorem C7_gap_exceeds_slack_witness :
    dGet (check_10q_parts_for_bugs "abcdef"
        [("part_1", "x"), ("part_2", "y")] (3 :: 300 :: [])) "part_1" =
      pySliceInt "abcdef"
        (3 - ((dGet [("part_1", "x"), ("part_2", "y")] "part_1").length : Int))
        (300 - ((dGet [("part_1", "x"), ("part_2", "y")] "part_2").length : Int)) :=
  C7_gap_exceeds_slack "abcdef" [("part_1", "x"), ("part_2", "y")] 3 300 []
    (by decide) (by decide)

/-! ## Claim C8 -/

/-- Claim C8: for an 8-K the current item list is selected exactly when
the filing date is strictly after the 2004-08-23 cutoff, the obsolete
list otherwise (a filing dated exactly on the cutoff gets the obsolete
list), and an unknown filing type raises rather than returning a
best-effort schema. -/
theorem C8_schema_by_type_and_date :
    (∀ (d : PyDate),
      (dateLt obsolete_cutoff_date_8k d = true →
        determine_items_to_extract "8-K" d [] =
          Except.ok (item_list_8k, item_list_8k)) ∧
      (dateLt obsolete_cutoff_date_8k d = false →
        determine_items_to_extract "8-K" d [] =
          Except.ok (item_list_8k_obsolete, item_list_8k_obsolete))) ∧
    determine_items_to_extract "8-K" obsolete_cutoff_date_8k [] =
      Except.ok (item_list_8k_obsolete, item_list_8k_obsolete) ∧
    (∀ (ty : String) (d : PyDate) (itemsToExtract : List String),
      ¬ ty ∈ knownFilingTypes →
      determine_items_to_extract ty d itemsToExtract =
        Except.error ("Unsupported filing type: " ++ ty)) := by
  refine ⟨?_, ?_, ?_⟩
  · intro d
    constructor
    · intro hlt
      unfold determine_items_to_extract filing_type_schema
      rw [hlt]
      rfl
    · intro hlt
      unfold determine_items_to_extract filing_type_schema
      rw [hlt]
      rfl
  · rfl
  · intro ty d ite hmem
    simp only [knownFilingTypes, List.mem_cons, not_or, List.not_mem_nil,
      List.mem_singleton] at hmem
    obtain ⟨h1, h2, h3, h4, h5, h6, h7, h8, h9, _⟩ := hmem
    unfold determine_items_to_extract filing_type_schema
    rw [if_neg (by simp [h1]), if_neg (by simp [h2]), if_neg (by simp [h3]),
      if_neg (by simp [h4]), if_neg (by simp [h5]),
      if_neg (by simp [h6, h7]), if_neg (by simp [h8, h9])]

/-- Witness for C8_schema_by_type_and_date at concrete dates and an
unsupported type. -/
theorem C8_schema_by_type_and_date_witness :
    determine_items_to_extract "8-K" ⟨2020, 1, 1⟩ [] =
      Except.ok (item_list_8k, item_list_8k) ∧
    determine_items_to_extract "8-K" ⟨2004, 8, 23⟩ [] =
      Except.ok (item_list_8k_obsolete, item_list_8k_obsolete) ∧
    determine_items_to_extract "S-1" ⟨2020, 1, 1⟩ [] =
      Except.error ("Unsupported filing type: " ++ "S-1") :=
  ⟨(C8_schema_by_type_and_date.1 ⟨2020, 1, 1⟩).1 (by decide),
    C8_schema_by_type_and_date.2.1,
    C8_schema_by_type_and_date.2.2 "S-1" ⟨2020, 1, 1⟩ [] (by decide)⟩

/-! ## Claim C9 -/

/-- Claim C9: determine_items_to_extract persistently narrows the
instance state items_to_extract: starting unset, a 10-K filing sets it to
the full 10-K schema, a following post-cutoff 8-K narrows it to the
single shared identifier SIGNATURE; in general a non-empty state can only
shrink (the successor state is a subset), and a state with no overlap
with the filing schema raises. -/
theorem C9_items_state_shrinks :
    (∀ (d1 : PyDate), items_to_extract_step [] "10-K" d1 =
      Except.ok item_list_10k) ∧
    (∀ (d2 : PyDate), dateLt obsolete_cutoff_date_8k d2 = true →
      items_to_extract_step item_list_10k "8-K" d2 =
        Except.ok ["SIGNATURE"]) ∧
    (∀ (s : List String) (ty : String) (d : PyDate) (s2 : List String),
      ¬ s = [] → items_to_extract_step s ty d = Except.ok s2 → s2 ⊆ s) ∧
    (∀ (d : PyDate), items_to_extract_step ["1.01"] "10-K" d =
      Except.error ("Items defined by user do not match items for " ++ "10-K")) := by
  refine ⟨?_, ?_, ?_, ?_⟩
  · intro d1
    rfl
  · intro d2 hlt
    unfold items_to_extract_step determine_items_to_extract filing_type_schema
    rw [hlt]
    rfl
  · intro s ty d s2 hne hstep
    unfold items_to_extract_step determine_items_to_extract at hstep
    rcases hsch : filing_type_schema ty d with _ | itemsList
    · rw [hsch] at hstep
      exact absurd hstep (by simp [Except.map])
    · rw [hsch] at hstep
      dsimp only at hstep
      rw [show s.isEmpty = false from by
        cases s with
        | nil => exact absurd rfl hne
        | cons a l => rfl] at hstep
      simp only [Bool.not_false, if_true] at hstep
      by_cases hov : (s.filter (fun i => itemsList.contains i)).isEmpty = true
      · rw [hov] at hstep
        simp [Except.map] at hstep
      · rw [show (s.filter (fun i => itemsList.contains i)).isEmpty = false from
          by simpa using hov] at hstep
        simp only [Bool.not_false, if_true, Except.map, Except.ok.injEq] at hstep
        rw [← hstep]
        exact (List.filter_sublist s).subset
  · intro d
    rfl

/-- Witness for C9_items_state_shrinks at concrete inputs. -/
theorem C9_items_state_shrinks_witness :
    items_to_extract_step item_list_10k "8-K" ⟨2020, 1, 1⟩ =
      Except.ok ["SIGNATURE"] ∧
    (["SIGNATURE"] : List String) ⊆ item_list_10k :=
  ⟨C9_items_state_shrinks.2.1 ⟨2020, 1, 1⟩ (by decide),
    C9_items_state_shrinks.2.2.1 item_list_10k "8-K" ⟨2020, 1, 1⟩ ["SIGNATURE"]
      (by decide) (C9_items_state_shrinks.2.1 ⟨2020, 1, 1⟩ (by decide))⟩

/-! ## Claim C10 -/

/-- A whitespace character is not a digit. -/
theorem whitespace_not_digit (c : Char) (h : c.isWhitespace = true) :
    c.isDigit = false := by
  simp only [Char.isWhitespace, Bool.or_eq_true, decide_eq_true_eq] at h
  rcases h with ((rfl | rfl) | rfl) | rfl <;> decide

/-- Digits and whitespace are disjoint counts. -/
theorem digit_count_add_space_count_le (l : List Char) :
    (l.filter Char.isDigit).length + (l.filter Char.isWhitespace).length ≤
      l.length := by
  induction l with
  | nil => simp
  | cons c rest ih =>
    by_cases hw : c.isWhitespace = true
    · have hd := whitespace_not_digit c hw
      simp only [List.filter_cons, hw, hd, if_true, Bool.false_eq_true,
        if_false, List.length_cons]
      omega
    · have hw2 : c.isWhitespace = false := by simpa using hw
      by_cases hd : c.isDigit = true
      · simp only [List.filter_cons, hw2, hd, if_true, Bool.false_eq_true,
          if_false, List.length_cons]
        omega
      · have hd2 : c.isDigit = false := by simpa using hd
        simp only [List.filter_cons, hw2, hd2, Bool.false_eq_true, if_false,
          List.length_cons]
        omega

/-- Claim C10: calculate_table_character_percentages is total: it returns
(0, 0) on the empty string, a zero digit percentage on all-whitespace
strings (both divisions are guarded), and both percentages always lie in
the closed interval from 0 to 1. -/
theorem C10_table_percentages_total (s : String) :
    (s = "" → calculate_table_character_percentages s = (0, 0)) ∧
    (s.toList.all Char.isWhitespace = true →
      (calculate_table_character_percentages s).1 = 0) ∧
    0 ≤ (calculate_table_character_percentages s).1 ∧
    (calculate_table_character_percentages s).1 ≤ 1 ∧
    0 ≤ (calculate_table_character_percentages s).2 ∧
    (calculate_table_character_percentages s).2 ≤ 1 := by
  set digits : Nat := (s.toList.filter Char.isDigit).length with hdig
  set spaces : Nat := (s.toList.filter Char.isWhitespace).length with hsp
  set n : Nat := s.toList.length with hn
  have hsle : spaces ≤ n := by
    rw [hsp, hn]
    exact List.length_filter_le _ _
  have hdsle : digits + spaces ≤ n := by
    rw [hdig, hsp, hn]
    exact digit_count_add_space_count_le s.toList
  have hunf : calculate_table_character_percentages s =
      ((if n - spaces ≠ 0 then (digits : ℚ) / ((n - spaces : Nat) : ℚ) else 0),
        (if n ≠ 0 then (spaces : ℚ) / (n : ℚ) else 0)) := rfl
  refine ⟨?_, ?_, ?_, ?_, ?_, ?_⟩
  · intro he
    subst he
    rfl
  · intro hall
    have hfull : spaces = n := by
      rw [hsp, hn]
      rw [List.filter_eq_self.mpr (fun a ha => List.all_eq_true.mp hall a ha)]
    rw [hunf]
    simp [hfull]
  · rw [hunf]
    dsimp only
    by_cases hg : n - spaces ≠ 0
    · rw [if_pos hg]
      positivity
    · rw [if_neg hg]
  · rw [hunf]
    dsimp only
    by_cases hg : n - spaces ≠ 0
    · rw [if_pos hg]
      rw [div_le_one (by positivity)]
      have : digits ≤ n - spaces := by omega
      exact_mod_cast this
    · rw [if_neg hg]
      norm_num
  · rw [hunf]
    dsimp only
    by_cases hg : n ≠ 0
    · rw [if_pos hg]
      positivity
    · rw [if_neg hg]
  · rw [hunf]
    dsimp only
    by_cases hg : n ≠ 0
    · rw [if_pos hg]
      rw [div_le_one (by positivity)]
      exact_mod_cast hsle
    · rw [if_neg hg]
      norm_num

/-- Witness for C10_table_percentages_total at the empty string. -/
theorem C10_table_percentages_total_witness :
    calculate_table_character_percentages "" = (0, 0) ∧
    (calculate_table_character_percentages "").1 = 0 :=
  ⟨(C10_table_percentages_total "").1 rfl,
    (C10_table_percentages_total "").2.1 (by decide)⟩

/-! ## Claim C6 -/

/-- When ignore_matches covers the whole occurrence list, the inner loop
of parse_item skips every match. -/
theorem occLoop_skip_all (O : ReOracle) (a n l : String) (ignore : Nat) :
    ∀ (ms : List ReMatch) (idx : Nat) (st : ParseState),
    idx + ms.length ≤ ignore →
    occLoop O a n l ignore idx ms st = st := by
  intro ms
  induction ms with
  | nil => intro idx st _; rfl
  | cons m rest ih =>
    intro idx st h
    simp only [List.length_cons] at h
    unfold occLoop
    rw [if_pos (by omega : idx < ignore)]
    exact ih (idx + 1) st (by omega)

/-- parse_item is insensitive to the exact value of ignore_matches once it
is at least the number of occurrence matches. -/
theorem parseLoop_ignore_high (O : ReOracle)
    (itemIndex itemPartNo lastIndex : String) (a b : Nat)
    (ha : (O.occ itemIndex).length ≤ a) (hb : (O.occ itemIndex).length ≤ b) :
    ∀ (l : List String) (st : ParseState),
    parseLoop O itemIndex itemPartNo lastIndex a l st =
      parseLoop O itemIndex itemPartNo lastIndex b l st := by
  intro l
  induction l with
  | nil => intro st; rfl
  | cons n rest ih =>
    intro st
    unfold parseLoop
    dsimp only
    cases hp : st.possList.isEmpty with
    | false => rfl
    | true =>
      simp only [Bool.not_true, Bool.false_eq_true, if_false]
      by_cases hpart : (isPartCompound n && partNumber n != itemPartNo) = true
      · rw [if_pos hpart, if_pos hpart]
      · rw [if_neg hpart, if_neg hpart]
        rw [occLoop_skip_all O itemIndex n lastIndex a (O.occ itemIndex) 0 _
            (by omega),
          occLoop_skip_all O itemIndex n lastIndex b (O.occ itemIndex) 0 _
            (by omega)]
        exact ih _

/-- Stability of parse_item in ignore_matches beyond the occurrence
count. -/
theorem parse_item_ignore_high (O : ReOracle) (itemsList : List String)
    (text itemIndex : String) (nextItemList : List String)
    (positions : List Int) (a b : Nat)
    (ha : (O.occ itemIndex).length ≤ a) (hb : (O.occ itemIndex).length ≤ b) :
    parse_item O itemsList text itemIndex nextItemList positions a =
      parse_item O itemsList text itemIndex nextItemList positions b := by
  unfold parse_item
  dsimp only
  rw [parseLoop_ignore_high O itemIndex (partNumber itemIndex)
    (nextItemList.getLastD "") a b ha hb nextItemList]

/-- Stability of the part loop. -/
theorem parse_10q_parts_loop_ignore_high (O : ReOracle)
    (partsAll : List String) (text : String) (a b : Nat) :
    ∀ (l : List String) (texts : List (String × String)) (pps : List Int),
    (∀ p ∈ l, (O.occ p).length ≤ a) → (∀ p ∈ l, (O.occ p).length ≤ b) →
    parse_10q_parts_loop O partsAll text a l texts pps =
      parse_10q_parts_loop O partsAll text b l texts pps := by
  intro l
  induction l with
  | nil => intro texts pps _ _; rfl
  | cons p rest ih =>
    intro texts pps ha hb
    unfold parse_10q_parts_loop
    rw [parse_item_ignore_high O partsAll text p rest pps a b
      (ha p (List.mem_cons_self _ _)) (hb p (List.mem_cons_self _ _))]
    exact ih _ _ (fun q hq => ha q (List.mem_cons_of_mem _ hq))
      (fun q hq => hb q (List.mem_cons_of_mem _ hq))

/-- Upper bound on the occurrence counts of all parts. -/
def partsOccBound (O : ReOracle) (parts : List String) : Nat :=
  (parts.map (fun p => (O.occ p).length)).foldr max 0

theorem le_partsOccBound (O : ReOracle) :
    ∀ (parts : List String) (p : String), p ∈ parts →
    (O.occ p).length ≤ partsOccBound O parts := by
  intro parts
  induction parts with
  | nil => intro p hp; simp at hp
  | cons q rest ih =>
    intro p hp
    unfold partsOccBound
    rw [List.map_cons, List.foldr_cons]
    rcases List.mem_cons.mp hp with rfl | hp
    · exact le_max_left _ _
    · exact le_trans (ih p hp) (le_max_right _ _)

/-- The part split computed by parse_10q_parts is the same for every
ignore_matches value at or beyond the bound. -/
theorem parse_10q_parts_stable (O : ReOracle) (parts : List String)
    (text : String) (g : Nat) (hg : partsOccBound O parts ≤ g) :
    parse_10q_parts O parts text (g + 1) = parse_10q_parts O parts text g := by
  unfold parse_10q_parts
  exact parse_10q_parts_loop_ignore_high O parts text (g + 1) g parts [] []
    (fun p hp => le_trans (le_partsOccBound O parts p hp) (by omega))
    (fun p hp => le_trans (le_partsOccBound O parts p hp) hg)

/-- The while loop of get_10q_parts exits (with enough fuel) on every
input: the imbalance either drops below the threshold or stops changing
once the skip count has passed the number of occurrences. -/
theorem get_10q_loop_some (O : ReOracle) (parts : List String)
    (text : String) :
    ∀ (fuel g : Nat) (texts : List (String × String)) (ld : Int),
    (partsOccBound O parts - g) + 2 ≤ fuel →
    (get_10q_loop O parts text fuel texts ld g).isSome = true := by
  intro fuel
  induction fuel with
  | zero => intro g texts ld h; omega
  | succ f ihf =>
    intro g texts ld h
    unfold get_10q_loop
    by_cases hld : ld > 5000
    · rw [if_pos hld]
      dsimp only
      by_cases heq : (lengthDifference (loopTexts O parts text g) == ld) = true
      · rw [if_pos heq]
        rfl
      · rw [if_neg heq]
        by_cases hgB : partsOccBound O parts ≤ g
        · cases f with
          | zero => omega
          | succ f2 =>
            unfold get_10q_loop
            by_cases hld2 : lengthDifference (loopTexts O parts text g) > 5000
            · rw [if_pos hld2]
              dsimp only
              have hstab : loopTexts O parts text (g + 1) =
                  loopTexts O parts text g := by
                unfold loopTexts
                rw [parse_10q_parts_stable O parts text g hgB]
              rw [hstab]
              rw [if_pos (by simp :
                (lengthDifference (loopTexts O parts text g) ==
                  lengthDifference (loopTexts O parts text g)) = true)]
              rfl
            · rw [if_neg hld2]
              rfl
        · exact ihf (g + 1) (loopTexts O parts text g)
            (lengthDifference (loopTexts O parts text g)) (by omega)
    · rw [if_neg hld]
      rfl

/-- Claim C6: (termination) for every oracle, schema and text there is a
fuel value with which get_10q_parts completes, i.e. the part-repair retry
loop always terminates; (fallback) whenever an iteration finds that
skipping one more leading occurrence leaves the part-length imbalance
unchanged, the loop returns the parts recomputed with zero skipped
occurrences (the unskipped, bug-checked result). -/
theorem C6_retry_loop_terminates :
    (∀ (O : ReOracle) (itemsList : List String) (text : String),
      ∃ fuel, (get_10q_parts O itemsList text fuel).isSome = true) ∧
    (∀ (O : ReOracle) (parts : List String) (text : String) (f : Nat)
        (texts : List (String × String)) (ld : Int) (ignore : Nat),
      ld > 5000 →
      (lengthDifference (loopTexts O parts text ignore) == ld) = true →
      get_10q_loop O parts text (f + 1) texts ld ignore =
        some (check_10q_parts_for_bugs text
          (parse_10q_parts O parts text 0).1
          (parse_10q_parts O parts text 0).2)) := by
  constructor
  · intro O itemsList text
    refine ⟨partsOccBound O (derive_parts itemsList) + 2, ?_⟩
    unfold get_10q_parts
    exact get_10q_loop_some O (derive_parts itemsList) text
      (partsOccBound O (derive_parts itemsList) + 2) 1 _ _ (by omega)
  · intro O parts text f texts ld ignore hld heq
    unfold get_10q_loop
    rw [if_pos hld]
    dsimp only
    rw [if_pos heq]

/-- Text for the C6 witness: 5001 characters, no whitespace. -/
def w6text : String := (List.replicate 5001 (Char.ofNat 97)).asString

/-- Oracle for the C6 witness: no heading occurrences, but an open-ended
occurrence of PART II at the start of the document. -/
def w6oracle : ReOracle :=
  { occ := fun _ => []
    possCS := fun _ _ _ => []
    possCI := fun _ _ _ => []
    lastOcc := fun p => if p == "part_2" then [⟨0, 1, 1, 1⟩] else [] }

/-- dropWhile does nothing on a replicate of a character the predicate
rejects. -/
theorem dropWhile_replicate_not (p : Char → Bool) (c : Char)
    (hc : p c = false) (n : Nat) :
    (List.replicate n c).dropWhile p = List.replicate n c := by
  cases n with
  | zero => rfl
  | succ k =>
    rw [List.replicate_succ, List.dropWhile_cons_of_neg (by simp [hc])]

/-- Resolution of part_2 against an empty tail falls back to the
open-ended suffix at its only occurrence. -/
theorem w6_parse_part2 (g : Nat) :
    parse_item w6oracle ["part_1", "part_2"] w6text "part_2" [] [] g =
      (pyStrip (pySuffix w6text 0), []) := rfl

/-- The part split of the witness input, for every skip count. -/
theorem w6_parse_10q_parts (g : Nat) :
    parse_10q_parts w6oracle ["part_1", "part_2"] w6text g =
      ([("part_1", ""), ("part_2", pyStrip (pySuffix w6text 0))], []) := by
  unfold parse_10q_parts parse_10q_parts_loop
  rw [parse_item_no_occurrence w6oracle ["part_1", "part_2"] w6text "part_1"
    ["part_2"] [] g rfl rfl]
  dsimp only
  unfold parse_10q_parts_loop
  rw [w6_parse_part2 g]
  rfl

/-- The stripped whole-document suffix keeps all 5001 characters. -/
theorem w6_strip_length : (pyStrip (pySuffix w6text 0)).length = 5001 := by
  have hsuffix : pySuffix w6text 0 = w6text := by
    unfold pySuffix
    rw [show w6text.toList = List.replicate 5001 (Char.ofNat 97) from rfl,
      List.drop_zero]
    rfl
  have hstrip : pyStrip w6text = w6text := by
    unfold pyStrip
    rw [show w6text.toList = List.replicate 5001 (Char.ofNat 97) from rfl,
      dropWhile_replicate_not _ _ (by decide) 5001, List.reverse_replicate,
      dropWhile_replicate_not _ _ (by decide) 5001, List.reverse_replicate]
    rfl
  rw [hsuffix, hstrip,
    show w6text.length = (List.replicate 5001 (Char.ofNat 97)).length from rfl,
    List.length_replicate]

/-- The loop-body imbalance of the witness input is 5001. -/
theorem w6_lengthDifference :
    lengthDifference (loopTexts w6oracle ["part_1", "part_2"] w6text 3) =
      5001 := by
  have hloop : loopTexts w6oracle ["part_1", "part_2"] w6text 3 =
      [("part_1", ""), ("part_2", pyStrip (pySuffix w6text 0))] := by
    unfold loopTexts
    rw [w6_parse_10q_parts 3]
    rfl
  rw [hloop]
  unfold lengthDifference
  rw [show dGet [("part_1", ""), ("part_2", pyStrip (pySuffix w6text 0))]
      "part_2" = pyStrip (pySuffix w6text 0) from rfl,
    show dGet [("part_1", ""), ("part_2", pyStrip (pySuffix w6text 0))]
      "part_1" = "" from rfl,
    w6_strip_length]
  rfl

/-- Witness for the fallback conjunct of C6_retry_loop_terminates at a
concrete input whose imbalance is stuck at 5001. -/
theorem C6_retry_loop_terminates_witness :
    get_10q_loop w6oracle ["part_1", "part_2"] w6text (0 + 1)
        [("part_1", ""), ("part_2", "x")] 5001 3 =
      some (check_10q_parts_for_bugs w6text
        (parse_10q_parts w6oracle ["part_1", "part_2"] w6text 0).1
        (parse_10q_parts w6oracle ["part_1", "part_2"] w6text 0).2) :=
  C6_retry_loop_terminates.2 w6oracle ["part_1", "part_2"] w6text 0
    [("part_1", ""), ("part_2", "x")] 5001 3 (by omega)
    (by rw [w6_lengthDifference]; rfl)

end EdgarCrawler
